import Mathlib

/-!
# Verification of the Crime-Analysis pipeline (`sample_analysis.py`)

A shallow embedding of the `CrimeDataAnalyzer` class: tables are lists of
rows over a typed column header, each pipeline stage is a pure function on
an explicit analyzer state, and Python exceptions are modelled as an error
type returned alongside the (possibly unchanged) state.
-/

namespace Crime

/-- Column dtypes as pandas sees them: `text` is the object/string dtype,
`intV`-valued columns are numeric, `boolT` is the boolean dtype produced by
`astype(bool)`, and `date` is the parsed datetime dtype. -/
inductive Dtype where
  | text
  | numT
  | boolT
  | date
deriving DecidableEq, Repr

/-- A parsed datetime value: the calendar components exposed by the pandas
`.dt` accessors, plus an absolute day number `absDay` so that the
subtraction `(a - b).days` of two timestamps is `a.absDay - b.absDay`.
`dayOfWeek` uses the pandas convention 0 = Monday .. 6 = Sunday. -/
structure DateTime where
  absDay : Int
  year : Int
  month : Nat
  day : Nat
  dayOfWeek : Nat
  hour : Nat
deriving DecidableEq, Repr

/-- A cell of a table: a string, an integer, a boolean, a datetime, or a
missing value (pandas `NaN`/`NaT`). -/
inductive Value where
  | str (s : String)
  | intV (n : Int)
  | boolV (b : Bool)
  | dateV (d : DateTime)
  | null
deriving DecidableEq, Repr

structure Column where
  name : String
  dtype : Dtype
deriving DecidableEq, Repr

/-- A row is the list of cell values, positionally aligned with the column
header of its table. -/
abbrev Row := List Value

/-- An in-memory dataframe: a column header and a list of rows. -/
structure Table where
  cols : List Column
  rows : List Row
deriving DecidableEq, Repr

def colNames (t : Table) : List String := t.cols.map (fun c => c.name)

def hasCol (t : Table) (n : String) : Bool := t.cols.any (fun c => c.name = n)

/-- Position of a named column in the header, if present. -/
def colIdx (t : Table) (n : String) : Option Nat :=
  t.cols.findIdx? (fun c => c.name = n)

/-- Cell of a row at a column position (missing position reads as null). -/
def cellAt (r : Row) (i : Nat) : Value := r.getD i .null

/-- Apply `f` to the element at position `n`, leaving the rest unchanged. -/
def modifyIdx (f : α → α) : Nat → List α → List α
  | _, [] => []
  | 0, a :: as => f a :: as
  | n + 1, a :: as => a :: modifyIdx f n as

/-- Recursion kernel of `dedupRows`: drop any row already seen. -/
def dedupSeen (seen : List Row) : List Row → List Row
  | [] => []
  | r :: rs => if r ∈ seen then dedupSeen seen rs else r :: dedupSeen (r :: seen) rs

/-- `drop_duplicates()` with the default `keep='first'`: keep the first
occurrence of every row, preserving order. -/
def dedupRows (l : List Row) : List Row := dedupSeen [] l

/-- `categorize_time` from `engineer_features` (line 216): bucket an hour
into a time-of-day label. -/
def categorize_time (hour : Nat) : String :=
  if 6 ≤ hour ∧ hour < 12 then "Morning"
  else if 12 ≤ hour ∧ hour < 18 then "Afternoon"
  else if 18 ≤ hour ∧ hour < 24 then "Evening"
  else "Night"

/-- `get_season` from `engineer_features` (line 230): bucket a month number
into a season label. -/
def get_season (month : Nat) : String :=
  if month = 12 ∨ month = 1 ∨ month = 2 then "Winter"
  else if month = 3 ∨ month = 4 ∨ month = 5 then "Spring"
  else if month = 6 ∨ month = 7 ∨ month = 8 then "Summer"
  else "Fall"

/-- The fixed list `violent_crimes` of `engineer_features` (line 245). -/
def violent_crimes : List String :=
  ["HOMICIDE", "ASSAULT", "BATTERY", "ROBBERY",
   "CRIMINAL SEXUAL ASSAULT", "KIDNAPPING"]

/-- `df['primary_type'].isin(violent_crimes)` on one cell: only a string
equal to one of the listed categories tests true (a missing value or a
non-string value is never `in` the list). -/
def isViolentVal (v : Value) : Bool :=
  match v with
  | .str s => violent_crimes.contains s
  | _ => false

/-- Python exception classes raised by the script, as distinct error
kinds. `valueError` carries the message of the `raise ValueError(...)`
(used both for a missing data path and for every invoked-too-early
"InvalidState" guard); `notFound` is `FileNotFoundError`; `loadError`
covers any other load/parse failure; `keyError` is the pandas `KeyError`
on a missing column; `zeroDivision` is `ZeroDivisionError`. -/
inductive PipeError where
  | valueError (msg : String)
  | notFound
  | loadError
  | keyError (col : String)
  | zeroDivision
  | attrError
deriving DecidableEq, Repr

/-- The four `critical_fields` of `clean_data` (line 151). -/
def critical_fields : List String :=
  ["date", "primary_type", "latitude", "longitude"]

/-- A row has a missing value in one of the critical fields
(`df[critical_fields].isnull().any(axis=1)`). -/
def anyCriticalNull (cols : List Column) (r : Row) : Bool :=
  critical_fields.any (fun n =>
    match (List.findIdx? (fun c => c.name = n) cols) with
    | some i => cellAt r i = .null
    | none => false)

/-- `fillna(x)` on one named column: replace missing cells by `x`. -/
def fillnaCol (t : Table) (n : String) (x : Value) : Table :=
  match colIdx t n with
  | none => t
  | some i =>
    { t with rows := t.rows.map (modifyIdx (fun v => if v = .null then x else v) i) }

/-- Python truthiness, as `astype(bool)` applies it elementwise: a
nonempty string, a nonzero integer, a timestamp and even a `NaN` are
truthy; `False`, `0` and `""` are falsy. -/
def pyBool (v : Value) : Bool :=
  match v with
  | .boolV b => b
  | .str s => !s.isEmpty
  | .intV n => n != 0
  | .dateV _ => true
  | .null => true

/-- `df[n] = df[n].fillna(False).astype(bool)` on one named column (no-op
when the column is absent, exactly as the `if n in df.columns` guard):
missing cells become `False`, every cell is cast through Python
truthiness, and the column dtype becomes boolean. -/
def coerceBoolCol (t : Table) (n : String) : Table :=
  match colIdx t n with
  | none => t
  | some i =>
    { cols := modifyIdx (fun c => { c with dtype := .boolT }) i t.cols,
      rows := t.rows.map (modifyIdx
        (fun v => .boolV (pyBool (if v = .null then .boolV false else v))) i) }

/-- Leading-whitespace strip on a character list. -/
def dropLeadingWs : List Char → List Char
  | [] => []
  | c :: cs => if c.isWhitespace then dropLeadingWs cs else c :: cs

/-- Python `str.strip()`: remove leading and trailing whitespace. -/
def pyStrip (s : String) : String :=
  ⟨(dropLeadingWs (dropLeadingWs s.data.reverse).reverse)⟩

/-- Python `str.upper()` (ASCII letters, as in this dataset). -/
def pyUpper (s : String) : String := ⟨s.data.map Char.toUpper⟩

/-- `.str.strip().str.upper()` on one cell of an object-dtype column:
strings are trimmed and upper-cased, missing values propagate, and any
non-string element of an object column comes out as `NaN`. -/
def stdCell (v : Value) : Value :=
  match v with
  | .str s => .str (pyUpper (pyStrip s))
  | _ => .null

/-- The text-standardisation loop of `clean_data` (lines 173-176): every
column of object (text) dtype except `date` has each cell trimmed and
upper-cased. -/
def standardizeRow (cols : List Column) (r : Row) : Row :=
  (cols.zip r).map (fun p =>
    if p.1.dtype = .text ∧ p.1.name ≠ "date" then stdCell p.2 else p.2)

def standardizeText (t : Table) : Table :=
  { t with rows := t.rows.map (standardizeRow t.cols) }

/-- `CrimeDataAnalyzer.clean_data`, table level (lines 141-182): drop
exact duplicates, select `df[critical_fields]` (a `KeyError` if one of
the four columns is absent) and drop rows with a missing critical field,
fill `description` / `location_description` with `"UNKNOWN"`, coerce
`arrest` and `domestic` to boolean, and standardise text columns. -/
def cleanTable (t : Table) : Except PipeError Table :=
  let rows1 := dedupRows t.rows
  match critical_fields.find? (fun n => !(hasCol t n)) with
  | some missing => .error (.keyError missing)
  | none =>
    let t2 : Table := { cols := t.cols,
                        rows := rows1.filter (fun r => !anyCriticalNull t.cols r) }
    let t3 := fillnaCol t2 "description" (.str "UNKNOWN")
    let t4 := fillnaCol t3 "location_description" (.str "UNKNOWN")
    let t5 := coerceBoolCol t4 "arrest"
    let t6 := coerceBoolCol t5 "domestic"
    .ok (standardizeText t6)

/-- pandas `Series.dt.month_name()` for months 1..12. -/
def month_name : Nat → String
  | 1 => "January" | 2 => "February" | 3 => "March" | 4 => "April"
  | 5 => "May" | 6 => "June" | 7 => "July" | 8 => "August"
  | 9 => "September" | 10 => "October" | 11 => "November" | 12 => "December"
  | _ => ""

/-- pandas `Series.dt.day_name()` for the 0 = Monday .. 6 = Sunday
`dayofweek` convention. -/
def day_name : Nat → String
  | 0 => "Monday" | 1 => "Tuesday" | 2 => "Wednesday" | 3 => "Thursday"
  | 4 => "Friday" | 5 => "Saturday" | 6 => "Sunday"
  | _ => ""

/-- `df[n] = series`: overwrite the named column in place if it exists
(keeping its position) and otherwise append it on the right; `f` computes
the new cell of each row from that row. -/
def setColumn (t : Table) (n : String) (dt : Dtype) (f : Row → Value) : Table :=
  match colIdx t n with
  | some i =>
    { cols := modifyIdx (fun c => { c with dtype := dt }) i t.cols,
      rows := t.rows.map (fun r => r.set i (f r)) }
  | none =>
    { cols := t.cols ++ [⟨n, dt⟩],
      rows := t.rows.map (fun r => r ++ [f r]) }

/-- The ten date-derived column assignments of `engineer_features`
(lines 204-240), in source order: target name, resulting dtype, and the
cell value as a function of the row's `date` cell.  A missing (`NaT`)
date yields null numeric/name derivatives; note that in the source
`categorize_time` applied to a missing hour falls through every
comparison to `"Night"`, `get_season` to `"Fall"`, and `isin([5, 6])` on
a missing value is false. -/
def dateFeatureSpecs : List (String × Dtype × (Value → Value)) :=
  [("year", .numT, fun v => match v with | .dateV d => .intV d.year | _ => .null),
   ("month", .numT, fun v => match v with | .dateV d => .intV d.month | _ => .null),
   ("month_name", .text, fun v =>
     match v with | .dateV d => .str (month_name d.month) | _ => .null),
   ("day", .numT, fun v => match v with | .dateV d => .intV d.day | _ => .null),
   ("day_of_week", .numT, fun v =>
     match v with | .dateV d => .intV d.dayOfWeek | _ => .null),
   ("day_name", .text, fun v =>
     match v with | .dateV d => .str (day_name d.dayOfWeek) | _ => .null),
   ("hour", .numT, fun v => match v with | .dateV d => .intV d.hour | _ => .null),
   ("is_weekend", .boolT, fun v =>
     match v with
     | .dateV d => .boolV (d.dayOfWeek == 5 || d.dayOfWeek == 6)
     | _ => .boolV false),
   ("time_of_day", .text, fun v =>
     match v with
     | .dateV d => .str (categorize_time d.hour)
     | _ => .str "Night"),
   ("season", .text, fun v =>
     match v with
     | .dateV d => .str (get_season d.month)
     | _ => .str "Fall")]

/-- The ten sequential `df[...] = ...` assignments, each reading the
row's `date` cell at its (stable) position `di`. -/
def addDateFeatures (t : Table) (di : Nat) : Table :=
  dateFeatureSpecs.foldl
    (fun acc s => setColumn acc s.1 s.2.1 (fun r => s.2.2 (cellAt r di))) t

/-- `CrimeDataAnalyzer.engineer_features`, table level (lines 201-251):
assign the ten date-derived columns and — only when a `primary_type`
column exists — the `is_violent` flag.  A missing `date` column is a
`KeyError`; the `.dt` accessor on a column that was not parsed as
datetime raises (modelled as `attrError`). -/
def engineerTable (t : Table) : Except PipeError Table :=
  match colIdx t "date" with
  | none => .error (.keyError "date")
  | some di =>
    if (t.cols.getD di ⟨"", .text⟩).dtype ≠ .date then .error .attrError
    else
      let t10 := addDateFeatures t di
      match colIdx t10 "primary_type" with
      | some pi => .ok (setColumn t10 "is_violent" .boolT
          (fun r => .boolV (isViolentVal (cellAt r pi))))
      | none => .ok t10

/-! ## Analyzers -/

/-- Numeric reading of a cell for `Series.sum()` over the boolean and
numeric columns the pipeline sums (booleans count 1 per `True`). -/
def sumVal (v : Value) : Int :=
  match v with
  | .boolV b => if b then 1 else 0
  | .intV n => n
  | _ => 0

def colSumAt (t : Table) (i : Nat) : Int :=
  (t.rows.map (fun r => sumVal (cellAt r i))).sum

/-- One optional-rate KPI: `df[n].sum() / len(df) * 100`, computed only
when the column exists.  On an empty table the division is the numpy
scalar `0 / 0`, which yields `nan` (the module suppresses the warning)
rather than raising, so the value is undefined — modelled `none`. -/
def rateOf (t : Table) (n : String) : Except PipeError (Option ℚ) :=
  match colIdx t n with
  | none => .ok none
  | some i =>
    if t.rows.length = 0 then .ok none
    else .ok (some ((colSumAt t i : ℚ) / (t.rows.length : ℚ) * 100))

/-- The absolute day numbers of the non-missing `date` cells
(`min()`/`max()` skip `NaT`); `KeyError` when there is no `date`
column. -/
def datesAbs (t : Table) : Except PipeError (List Int) :=
  match colIdx t "date" with
  | none => .error (.keyError "date")
  | some i => .ok (t.rows.filterMap (fun r =>
      match cellAt r i with | .dateV d => some d.absDay | _ => none))

/-- The dictionary built by `calculate_kpis`: `None` in an optional field
models both "key absent because the source column is absent" and the
`NaN` produced by a degenerate input (a rate over an empty table, or an
all-`NaT` date column). -/
structure Kpis where
  total_crimes : Nat
  arrest_rate : Option ℚ
  domestic_pct : Option ℚ
  violent_pct : Option ℚ
  avg_crimes_per_day : Option ℚ
deriving DecidableEq, Repr

/-- `CrimeDataAnalyzer.calculate_kpis`, table level (lines 400-431):
total count, then the three optional percentage KPIs in source order,
then `len(df) / (df['date'].max() - df['date'].min()).days`, which
raises `ZeroDivisionError` when the span in whole days is zero. -/
def calculate_kpisTable (t : Table) : Except PipeError Kpis := do
  let total := t.rows.length
  let ar ← rateOf t "arrest"
  let dom ← rateOf t "domestic"
  let vio ← rateOf t "is_violent"
  let ds ← datesAbs t
  match ds.max?, ds.min? with
  | some mx, some mn =>
    if mx - mn = 0 then .error .zeroDivision
    else .ok ⟨total, ar, dom, vio, some ((total : ℚ) / ((mx - mn : Int) : ℚ))⟩
  | _, _ => .ok ⟨total, ar, dom, vio, none⟩

/-- The integer entries of a named column (group keys; `groupby` drops
missing keys); `KeyError` when the column is absent. -/
def intCol (t : Table) (n : String) : Except PipeError (List Int) :=
  match colIdx t n with
  | none => .error (.keyError n)
  | some i => .ok (t.rows.filterMap (fun r =>
      match cellAt r i with | .intV k => some k | _ => none))

/-- `KeyError` guard for a `groupby` whose result the method only
prints. -/
def requireCol (t : Table) (n : String) : Except PipeError Unit :=
  match colIdx t n with
  | none => .error (.keyError n)
  | some _ => .ok ()

/-- `groupby(k).size()`: counts per key, keys sorted ascending. -/
def groupCountsInt (xs : List Int) : List (Int × Nat) :=
  ((xs.dedup).insertionSort (fun a b => a ≤ b)).map (fun k => (k, xs.count k))

/-- The non-head entries of `Series.pct_change() * 100`: each year is
paired with `(current / previous - 1) * 100`. -/
def yoyNext (prev : Nat) : List (Int × Nat) → List (Int × Option ℚ)
  | [] => []
  | q :: rest => (q.1, some (((q.2 : ℚ) / (prev : ℚ) - 1) * 100)) :: yoyNext q.2 rest

/-- `yearly_crimes.pct_change() * 100`, keeping pandas' undefined (`NaN`,
modelled `none`) entry for the first year. -/
def yoyChange : List (Int × Nat) → List (Int × Option ℚ)
  | [] => []
  | p :: rest => (p.1, none) :: yoyNext p.2 rest

/-- `df.groupby(['year','month']).size().groupby('month').mean()`: for
each month, the mean over years of that month's yearly count, i.e. the
number of records in the month divided by the number of distinct years
contributing to it. -/
def monthly_avg (ym : List (Int × Int)) : List (Int × ℚ) :=
  (((ym.map Prod.snd).dedup).insertionSort (fun a b => a ≤ b)).map (fun m =>
    let rows_m := ym.filter (fun p => p.2 = m)
    let years_m := (rows_m.map Prod.fst).dedup
    (m, (rows_m.length : ℚ) / (years_m.length : ℚ)))

/-- The `(year, month)` group keys, read rowwise. -/
def ymPairs (t : Table) : Except PipeError (List (Int × Int)) :=
  match colIdx t "year", colIdx t "month" with
  | some yi, some mi => .ok (t.rows.filterMap (fun r =>
      match cellAt r yi, cellAt r mi with
      | .intV y, .intV m => some (y, m)
      | _, _ => none))
  | none, _ => .error (.keyError "year")
  | _, none => .error (.keyError "month")

/-- `Series.idxmax()` on a key-sorted count series: the first entry
attaining the maximum count (strictly-greater replacement keeps the
earliest maximum).  `none` is returned exactly on the empty series, on
which pandas `idxmax` raises `ValueError` — the caller turns that case
into the error. -/
def firstMax : List (Int × Nat) → Option (Int × Nat)
  | [] => none
  | p :: ps =>
    match firstMax ps with
    | none => some p
    | some r => some (if p.2 < r.2 then r else p)

/-- The dictionary returned by `analyze_trends` (lines 298-303); the
day-of-week counts are printed but not returned.  `peak_hour` is a
plain value: on an empty hourly series `idxmax` raises, so no
dictionary is returned at all. -/
structure TrendResult where
  yearly_crimes : List (Int × Nat)
  yoy_change : List (Int × Option ℚ)
  monthlyAvg : List (Int × ℚ)
  peak_hour : Int
deriving DecidableEq, Repr

/-- `CrimeDataAnalyzer.analyze_trends`, table level (lines 270-303), in
source order: group by `year`, `pct_change`, group by `(year, month)`
then average per month, group by `day_name` (printed only), group by
`hour` and take `idxmax`.  Each missing grouping column is the
corresponding pandas `KeyError`; `idxmax` on an empty hourly series
(an enriched table with no rows) raises `ValueError`. -/
def analyze_trendsTable (t : Table) : Except PipeError TrendResult := do
  let years ← intCol t "year"
  let yearly := groupCountsInt years
  let yoy := yoyChange yearly
  let ym ← ymPairs t
  let mavg := monthly_avg ym
  let _ ← requireCol t "day_name"
  let hs ← intCol t "hour"
  let hourly := groupCountsInt hs
  match firstMax hourly with
  | some p => .ok ⟨yearly, yoy, mavg, p.1⟩
  | none => .error (.valueError "attempt to get argmax of an empty sequence")

/-- All entries of a named column (empty when absent; guarded use
only). -/
def colValues (t : Table) (n : String) : List Value :=
  match colIdx t n with
  | none => []
  | some i => t.rows.map (fun r => cellAt r i)

/-- `Series.value_counts()`: counts of the non-missing values, sorted by
count descending. -/
def valueCounts (vs : List Value) : List (Value × Nat) :=
  let present := vs.filter (fun v => v ≠ .null)
  @List.insertionSort (Value × Nat) (fun a b => b.2 ≤ a.2)
    (fun a b => Nat.decLe b.2 a.2)
    (present.dedup.map (fun k => (k, present.count k)))

/-- `CrimeDataAnalyzer.analyze_crime_types`, table level (lines 322-344):
per-category count and percentage share (`value_counts` is a `KeyError`
without a `primary_type` column); the per-category arrest rates are
printed, not returned. -/
def analyze_crime_typesTable (t : Table) :
    Except PipeError (List (Value × Nat × ℚ)) :=
  match colIdx t "primary_type" with
  | none => .error (.keyError "primary_type")
  | some _ =>
    .ok ((valueCounts (colValues t "primary_type")).map (fun p =>
      (p.1, p.2, (p.2 : ℚ) / (t.rows.length : ℚ) * 100)))

/-- `CrimeDataAnalyzer.analyze_geographic`, table level (lines 363-380):
district counts and location-type counts, each `None` (absent, not zero)
when its source column is absent. -/
def analyze_geographicTable (t : Table) :
    Option (List (Value × Nat)) × Option (List (Value × Nat)) :=
  ((if hasCol t "district" then some (valueCounts (colValues t "district")) else none),
   (if hasCol t "location_description" then
      some (valueCounts (colValues t "location_description")) else none))

/-- The statistics dictionary of `explore_data` (lines 89-95). -/
structure ExploreStats where
  total_records : Nat
  columns : Nat
  date_min : Option Int
  date_max : Option Int
  missing_values : Nat
  duplicate_records : Nat
deriving DecidableEq, Repr

/-- `df.isnull().sum().sum()`: missing cells over the whole table. -/
def countNulls (t : Table) : Nat :=
  (t.rows.map (fun r => (r.filter (fun v => v = .null)).length)).sum

/-- `CrimeDataAnalyzer.explore_data`, table level: counts, date extrema
(`KeyError` without a `date` column), missing-value and duplicate-row
censuses. -/
def explore_dataTable (t : Table) : Except PipeError ExploreStats :=
  match colIdx t "date" with
  | none => .error (.keyError "date")
  | some i =>
    let ds := t.rows.filterMap (fun r =>
      match cellAt r i with | .dateV d => some d.absDay | _ => none)
    .ok ⟨t.rows.length, t.cols.length, ds.min?, ds.max?, countNulls t,
         t.rows.length - (dedupRows t.rows).length⟩

/-! ## The analyzer object and its methods -/

/-- The mutable attributes of a `CrimeDataAnalyzer` instance. -/
structure AnalyzerState where
  data_path : Option String
  df : Option Table
  clean_df : Option Table
deriving DecidableEq, Repr

/-- `CrimeDataAnalyzer.__init__`. -/
def initState (p : Option String) : AnalyzerState := ⟨p, none, none⟩

/-- What reading a path can yield: a parsed table, `FileNotFoundError`,
or any other read/parse failure. -/
inductive LoadOutcome where
  | table (t : Table)
  | missing
  | malformed

/-- `path = data_path or self.data_path`: Python `or` also skips an empty
(falsy) string argument. -/
def effectivePath (st : AnalyzerState) (p : Option String) : Option String :=
  match p with
  | some s => if s.isEmpty then st.data_path else some s
  | none => st.data_path

/-- `CrimeDataAnalyzer.load_data` (lines 38-69): resolve the path — a
`ValueError` before any read when none was given —, then read; `self.df`
is assigned only when the read succeeds. -/
def load_data (st : AnalyzerState) (p : Option String)
    (fs : String → LoadOutcome) : AnalyzerState × Except PipeError Table :=
  match effectivePath st p with
  | none => (st, .error (.valueError "Data path must be provided"))
  | some path =>
    match fs path with
    | .table t => ({ st with df := some t }, .ok t)
    | .missing => (st, .error .notFound)
    | .malformed => (st, .error .loadError)

/-- `CrimeDataAnalyzer.explore_data` (lines 71-121): guard on `self.df`,
then a read-only computation. -/
def explore_data (st : AnalyzerState) :
    AnalyzerState × Except PipeError ExploreStats :=
  match st.df with
  | none => (st, .error (.valueError "Data not loaded. Call load_data() first."))
  | some t => (st, explore_dataTable t)

/-- `CrimeDataAnalyzer.clean_data` (lines 123-182): guard on `self.df`,
clean a copy, and assign `self.clean_df` on success. -/
def clean_data (st : AnalyzerState) : AnalyzerState × Except PipeError Table :=
  match st.df with
  | none => (st, .error (.valueError "Data not loaded. Call load_data() first."))
  | some t =>
    match cleanTable t with
    | .ok t2 => ({ st with clean_df := some t2 }, .ok t2)
    | .error e => (st, .error e)

/-- `CrimeDataAnalyzer.engineer_features` (lines 184-251): guard on
`self.clean_df`, derive features on a copy, and assign `self.clean_df`
on success. -/
def engineer_features (st : AnalyzerState) :
    AnalyzerState × Except PipeError Table :=
  match st.clean_df with
  | none => (st, .error (.valueError "Data not cleaned. Call clean_data() first."))
  | some t =>
    match engineerTable t with
    | .ok t2 => ({ st with clean_df := some t2 }, .ok t2)
    | .error e => (st, .error e)

/-- `CrimeDataAnalyzer.analyze_trends` (lines 253-303): guard on
`self.clean_df` only, then a read-only computation. -/
def analyze_trends (st : AnalyzerState) :
    AnalyzerState × Except PipeError TrendResult :=
  match st.clean_df with
  | none => (st, .error (.valueError "Data not prepared. Call clean_data() first."))
  | some t => (st, analyze_trendsTable t)

/-- `CrimeDataAnalyzer.analyze_crime_types` (lines 305-344). -/
def analyze_crime_types (st : AnalyzerState) :
    AnalyzerState × Except PipeError (List (Value × Nat × ℚ)) :=
  match st.clean_df with
  | none => (st, .error (.valueError "Data not prepared. Call clean_data() first."))
  | some t => (st, analyze_crime_typesTable t)

/-- `CrimeDataAnalyzer.analyze_geographic` (lines 346-380). -/
def analyze_geographic (st : AnalyzerState) :
    AnalyzerState × Except PipeError (Option (List (Value × Nat)) × Option (List (Value × Nat))) :=
  match st.clean_df with
  | none => (st, .error (.valueError "Data not prepared. Call clean_data() first."))
  | some t => (st, .ok (analyze_geographicTable t))

/-- `CrimeDataAnalyzer.calculate_kpis` (lines 382-431): guard on
`self.clean_df`, then a read-only computation. -/
def calculate_kpis (st : AnalyzerState) :
    AnalyzerState × Except PipeError Kpis :=
  match st.clean_df with
  | none => (st, .error (.valueError "Data not prepared. Call clean_data() first."))
  | some t => (st, calculate_kpisTable t)

/-! ## Spec-side definitions (Cleaner contract §4.3, for the refinement
claim): the five transformations, each written from the specification's
words as its own function. -/

/-- All four critical columns exist (`date, primary_type, latitude,
longitude`). -/
def hasCriticals (t : Table) : Bool := critical_fields.all (fun n => hasCol t n)

/-- Spec step 1: remove exact full-row duplicates (all columns equal). -/
def specRemoveDuplicates (t : Table) : Table := { t with rows := dedupRows t.rows }

/-- Spec step 2: drop every row in which any of the four critical fields
is missing. -/
def specDropMissingCritical (t : Table) : Table :=
  { t with rows := t.rows.filter (fun r => critical_fields.all (fun n =>
      match List.findIdx? (fun c => c.name = n) t.cols with
      | some i => decide (cellAt r i ≠ .null)
      | none => true)) }

/-- Spec step 3, cellwise: a missing value becomes the literal sentinel
`"UNKNOWN"`. -/
def specFillCell (v : Value) : Value :=
  match v with
  | .null => .str "UNKNOWN"
  | w => w

def specFillColumn (t : Table) (n : String) : Table :=
  match colIdx t n with
  | none => t
  | some i => { t with rows := t.rows.map (modifyIdx specFillCell i) }

/-- Spec step 3: fill missing description / location-description fields. -/
def specFillSentinels (t : Table) : Table :=
  specFillColumn (specFillColumn t "description") "location_description"

/-- Spec step 4, cellwise: missing maps to false, any other value is cast
to boolean. -/
def specToBool (v : Value) : Value :=
  match v with
  | .null => .boolV false
  | .boolV b => .boolV b
  | .str s => .boolV (!s.isEmpty)
  | .intV n => .boolV (decide (n ≠ 0))
  | .dateV _ => .boolV true

def specCoerceColumn (t : Table) (n : String) : Table :=
  match colIdx t n with
  | none => t
  | some i =>
    { cols := modifyIdx (fun c => { c with dtype := .boolT }) i t.cols,
      rows := t.rows.map (modifyIdx specToBool i) }

/-- Spec step 4: coerce the arrest and domestic fields to boolean. -/
def specCoerceBooleans (t : Table) : Table :=
  specCoerceColumn (specCoerceColumn t "arrest") "domestic"

/-- Spec step 5, cellwise: trim surrounding whitespace and upper-case. -/
def specStdCell (v : Value) : Value :=
  match v with
  | .str s => .str (pyUpper (pyStrip s))
  | _ => .null

/-- Spec step 5: apply to every text-typed column except the date
column. -/
def specStandardizeStep (t : Table) : Table :=
  { t with rows := t.rows.map (fun r => (t.cols.zip r).map (fun p =>
      if p.1.dtype = .text ∧ p.1.name ≠ "date" then specStdCell p.2 else p.2)) }

/-- The Cleaner of the specification: the five steps, strictly in this
order. -/
def specCleanPipeline (t : Table) : Table :=
  specStandardizeStep (specCoerceBooleans (specFillSentinels
    (specDropMissingCritical (specRemoveDuplicates t))))

/-! ## Well-formedness, already-clean form, freshness -/

/-- Every row has exactly one cell per column. -/
def WFT (t : Table) : Prop := ∀ r ∈ t.rows, r.length = t.cols.length

/-- No missing value in the named column (vacuous when absent). -/
def noNullsIn (t : Table) (n : String) : Bool :=
  match colIdx t n with
  | none => true
  | some i => t.rows.all (fun r => decide (cellAt r i ≠ .null))

/-- The named column, when present, is boolean-typed with only boolean
cells. -/
def boolClean (t : Table) (n : String) : Bool :=
  match colIdx t n with
  | none => true
  | some i =>
    decide ((t.cols.getD i ⟨n, .text⟩).dtype = .boolT) &&
    t.rows.all (fun r => match cellAt r i with | .boolV _ => true | _ => false)

/-- Every cell of a text-typed non-date column is either missing or an
already-trimmed, already-upper-cased string. -/
def textClean (t : Table) : Bool :=
  t.rows.all (fun r => (t.cols.zip r).all (fun p =>
    if p.1.dtype = .text ∧ p.1.name ≠ "date" then
      match p.2 with
      | .str s => decide (pyUpper (pyStrip s) = s)
      | .null => true
      | _ => false
    else true))

/-- A table in fully cleaned form: a fixed point of every one of the five
cleaning transformations. -/
def cleanedForm (t : Table) : Bool :=
  decide t.rows.Nodup &&
  hasCriticals t &&
  t.rows.all (fun r => !anyCriticalNull t.cols r) &&
  noNullsIn t "description" &&
  noNullsIn t "location_description" &&
  boolClean t "arrest" &&
  boolClean t "domestic" &&
  textClean t &&
  t.rows.all (fun r => decide (r.length = t.cols.length))

/-- The names of the columns `engineer_features` assigns, in assignment
order. -/
def derivedNames : List String :=
  ["year", "month", "month_name", "day", "day_of_week", "day_name",
   "hour", "is_weekend", "time_of_day", "season", "is_violent"]

/-- None of the derived column names already occurs in the table (the
pipeline's own tables satisfy this), so each assignment appends. -/
def freshForFeatures (t : Table) : Prop :=
  ∀ n ∈ derivedNames, hasCol t n = false

/-- The column headers `engineer_features` appends for the ten
date-derived features. -/
def dateDerivedCols : List Column :=
  [⟨"year", .numT⟩, ⟨"month", .numT⟩, ⟨"month_name", .text⟩,
   ⟨"day", .numT⟩, ⟨"day_of_week", .numT⟩, ⟨"day_name", .text⟩,
   ⟨"hour", .numT⟩, ⟨"is_weekend", .boolT⟩, ⟨"time_of_day", .text⟩,
   ⟨"season", .text⟩]

/-- The ten date-derived cells of one row, as functions of its `date`
cell. -/
def dateDerivedVals (v : Value) : List Value :=
  match v with
  | .dateV d =>
    [.intV d.year, .intV d.month, .str (month_name d.month),
     .intV d.day, .intV d.dayOfWeek, .str (day_name d.dayOfWeek),
     .intV d.hour, .boolV (d.dayOfWeek == 5 || d.dayOfWeek == 6),
     .str (categorize_time d.hour), .str (get_season d.month)]
  | _ =>
    [.null, .null, .null, .null, .null, .null, .null,
     .boolV false, .str "Night", .str "Fall"]

/-! ## Concrete tables and states used as witnesses and
counterexamples -/

/-- 2023-07-15 (a Saturday) at 14:00. -/
def dEx1 : DateTime := ⟨738885, 2023, 7, 15, 5, 14⟩

/-- A one-row table already in cleaned form. -/
def exClean : Table :=
  { cols := [⟨"date", .date⟩, ⟨"primary_type", .text⟩,
             ⟨"latitude", .numT⟩, ⟨"longitude", .numT⟩],
    rows := [[.dateV dEx1, .str "BATTERY", .intV 41, .intV (-87)]] }

/-- What `engineer_features` makes of `exClean`. -/
def exEnriched : Table :=
  { cols := [⟨"date", .date⟩, ⟨"primary_type", .text⟩,
             ⟨"latitude", .numT⟩, ⟨"longitude", .numT⟩] ++
            dateDerivedCols ++ [⟨"is_violent", .boolT⟩],
    rows := [[.dateV dEx1, .str "BATTERY", .intV 41, .intV (-87),
              .intV 2023, .intV 7, .str "July", .intV 15, .intV 5,
              .str "Saturday", .intV 14, .boolV true, .str "Afternoon",
              .str "Summer", .boolV true]] }

/-- Like `exClean` but with a lower-case crime type: no duplicate row and
no missing critical field, yet not a fixed point of the cleaner. -/
def exDirty : Table :=
  { cols := [⟨"date", .date⟩, ⟨"primary_type", .text⟩,
             ⟨"latitude", .numT⟩, ⟨"longitude", .numT⟩],
    rows := [[.dateV dEx1, .str "theft", .intV 41, .intV (-87)]] }

/-- A one-row table: its minimum date trivially equals its maximum
date. -/
def exKpi0 : Table :=
  { cols := [⟨"date", .date⟩], rows := [[.dateV dEx1]] }

/-- An enriched-shaped table for the trend analyzer: two 2020 records
and one 2021 record, hours 3, 3, 5. -/
def exTrend : Table :=
  { cols := [⟨"year", .numT⟩, ⟨"month", .numT⟩,
             ⟨"day_name", .text⟩, ⟨"hour", .numT⟩],
    rows := [[.intV 2020, .intV 1, .str "Monday", .intV 3],
             [.intV 2020, .intV 2, .str "Monday", .intV 3],
             [.intV 2021, .intV 1, .str "Tuesday", .intV 5]] }

/-- An analyzer that was cleaned but whose features were never
engineered: `clean_df` holds a table with no `year` column. -/
def stCleanedOnly : AnalyzerState := ⟨none, none, some exClean⟩

/-- A file system in which every path is missing. -/
def fsMissing : String → LoadOutcome := fun _ => .missing

instance exceptDecEq {ε α : Type} [DecidableEq ε] [DecidableEq α] :
    DecidableEq (Except ε α) := fun x y =>
  match x, y with
  | .ok a, .ok b =>
    if h : a = b then isTrue (by rw [h])
    else isFalse (by intro hc; cases hc; exact h rfl)
  | .error e, .error f =>
    if h : e = f then isTrue (by rw [h])
    else isFalse (by intro hc; cases hc; exact h rfl)
  | .ok _, .error _ => isFalse (by intro hc; cases hc)
  | .error _, .ok _ => isFalse (by intro hc; cases hc)

/-! ## Helper lemmas -/

theorem findIdx?_cons_zero (p : α → Bool) (x : α) (xs : List α) :
    List.findIdx? p (x :: xs) =
      if p x then some 0 else (List.findIdx? p xs).map (· + 1) := by
  simp [List.findIdx?_cons, List.findIdx?_succ]

theorem modifyIdx_length (f : α → α) (i : Nat) (l : List α) :
    (modifyIdx f i l).length = l.length := by
  induction l generalizing i with
  | nil => cases i <;> rfl
  | cons a as ih => cases i <;> simp [modifyIdx, ih]

theorem modifyIdx_congr (f g : α → α) (h : ∀ a, f a = g a) (i : Nat) (l : List α) :
    modifyIdx f i l = modifyIdx g i l := by
  induction l generalizing i with
  | nil => cases i <;> rfl
  | cons a as ih => cases i <;> simp [modifyIdx, h, ih]

theorem modifyIdx_eq_self (f : α → α) (i : Nat) (l : List α)
    (h : ∀ hi : i < l.length, f (l.get ⟨i, hi⟩) = l.get ⟨i, hi⟩) :
    modifyIdx f i l = l := by
  induction l generalizing i with
  | nil => cases i <;> rfl
  | cons a as ih =>
    cases i with
    | zero => simpa [modifyIdx] using h (by simp)
    | succ n =>
      simp only [modifyIdx, List.cons.injEq, true_and]
      exact ih n (fun hn => h (by simpa using Nat.succ_lt_succ hn))

theorem dedupSeen_length_le (seen : List Row) (l : List Row) :
    (dedupSeen seen l).length ≤ l.length := by
  induction l generalizing seen with
  | nil => simp [dedupSeen]
  | cons r rs ih =>
    rw [dedupSeen]
    by_cases hr : r ∈ seen
    · rw [if_pos hr]
      exact le_trans (ih seen) (Nat.le_succ _)
    · rw [if_neg hr]
      simpa using ih (r :: seen)

theorem dedupRows_length_le (l : List Row) : (dedupRows l).length ≤ l.length :=
  dedupSeen_length_le [] l

theorem dedupSeen_eq_self : ∀ (l : List Row) (seen : List Row), l.Nodup →
    (∀ r ∈ l, r ∉ seen) → dedupSeen seen l = l := by
  intro l
  induction l with
  | nil =>
    intro seen _ _
    rfl
  | cons r rs ih =>
    intro seen hnd hs
    rw [dedupSeen, if_neg (hs r (List.mem_cons_self r rs))]
    simp only [List.cons.injEq, true_and]
    apply ih (r :: seen) (List.nodup_cons.mp hnd).2
    intro x hx
    simp only [List.mem_cons]
    push_neg
    refine ⟨?_, hs x (List.mem_cons_of_mem r hx)⟩
    intro hxr
    exact (List.nodup_cons.mp hnd).1 (hxr ▸ hx)

theorem dedupRows_eq_self (l : List Row) (h : l.Nodup) : dedupRows l = l :=
  dedupSeen_eq_self l [] h (by simp)

theorem cellAt_append_left (r ext : Row) (i : Nat) (h : i < r.length) :
    cellAt (r ++ ext) i = cellAt r i := by
  simp [cellAt, List.getD_eq_getElem?_getD, List.getElem?_append_left h]

theorem cellAt_append_right (r : Row) (v : Value) (ext : Row) :
    cellAt (r ++ v :: ext) r.length = v := by
  simp [cellAt, List.getD_eq_getElem?_getD,
    List.getElem?_append_right (Nat.le_refl r.length)]

theorem setColumn_rows_length (t : Table) (n : String) (dt : Dtype) (f : Row → Value) :
    ((setColumn t n dt f).rows).length = t.rows.length := by
  unfold setColumn
  cases colIdx t n <;> simp

theorem hasCol_iff_findIdx (t : Table) (n : String) :
    hasCol t n = false ↔ colIdx t n = none := by
  constructor
  · intro h
    rw [colIdx, List.findIdx?_eq_none_iff]
    intro c hc
    simp only [hasCol, List.any_eq_false] at h
    simpa using h c hc
  · intro h
    rw [colIdx, List.findIdx?_eq_none_iff] at h
    unfold hasCol
    rw [List.any_eq_false]
    intro c hc
    simpa using h c hc

theorem setColumn_fresh (t : Table) (n : String) (dt : Dtype) (f : Row → Value)
    (h : hasCol t n = false) :
    setColumn t n dt f =
      ⟨t.cols ++ [⟨n, dt⟩], t.rows.map (fun r => r ++ [f r])⟩ := by
  unfold setColumn
  rw [(hasCol_iff_findIdx t n).mp h]

theorem findIdx?_lt_length {p : α → Bool} {l : List α} {i : Nat}
    (h : List.findIdx? p l = some i) : i < l.length := by
  induction l generalizing i with
  | nil => simp at h
  | cons a as ih =>
    rw [findIdx?_cons_zero] at h
    by_cases hpa : p a = true
    · simp [hpa] at h
      simp [h.symm]
    · simp [hpa] at h
      obtain ⟨j, hj, rfl⟩ := h
      simpa using Nat.succ_lt_succ (ih hj)

theorem findIdx?_append_some {p : α → Bool} {l1 : List α} {i : Nat} (l2 : List α)
    (h : List.findIdx? p l1 = some i) : List.findIdx? p (l1 ++ l2) = some i := by
  induction l1 generalizing i with
  | nil => simp at h
  | cons a as ih =>
    rw [findIdx?_cons_zero] at h
    rw [List.cons_append, findIdx?_cons_zero]
    by_cases hpa : p a = true
    · rw [if_pos hpa] at h ⊢
      exact h
    · rw [if_neg hpa] at h ⊢
      rw [Option.map_eq_some'] at h
      obtain ⟨j, hj, rfl⟩ := h
      rw [ih hj]
      rfl

theorem findIdx?_append_none {p : α → Bool} {l1 l2 : List α}
    (h1 : List.findIdx? p l1 = none) (h2 : List.findIdx? p l2 = none) :
    List.findIdx? p (l1 ++ l2) = none := by
  rw [List.findIdx?_eq_none_iff] at h1 h2 ⊢
  intro x hx
  rcases List.mem_append.mp hx with h | h
  · exact h1 x h
  · exact h2 x h

theorem findIdx?_append_cons_self {p : α → Bool} {l1 : List α} (x : α) (l2 : List α)
    (h1 : List.findIdx? p l1 = none) (hx : p x = true) :
    List.findIdx? p (l1 ++ x :: l2) = some l1.length := by
  induction l1 with
  | nil => simp [findIdx?_cons_zero, hx]
  | cons a as ih =>
    rw [findIdx?_cons_zero] at h1
    by_cases hpa : p a = true
    · rw [if_pos hpa] at h1
      exact absurd h1 (by simp)
    · rw [if_neg hpa] at h1
      have h1' : List.findIdx? p as = none := by
        rcases hfa : List.findIdx? p as with _ | j
        · rfl
        · rw [hfa] at h1
          simp at h1
      rw [List.cons_append, findIdx?_cons_zero, if_neg hpa, ih h1']
      rfl

theorem cellAt_append_idx (r ext : Row) (k : Nat) :
    cellAt (r ++ ext) (r.length + k) = cellAt ext k := by
  simp [cellAt, List.getD_eq_getElem?_getD,
    List.getElem?_append_right (Nat.le_add_right r.length k)]

theorem dateDerivedVals_length (v : Value) : (dateDerivedVals v).length = 10 := by
  cases v <;> rfl

/-- Accumulating a list of fresh column assignments appends the headers
and, rowwise, the derived cells, in order. -/
theorem foldl_setColumn_fresh (specs : List (String × Dtype × (Value → Value)))
    (t : Table) (di : Nat) (hWF : WFT t) (hdi : di < t.cols.length)
    (hfresh : ∀ s ∈ specs, hasCol t s.1 = false)
    (hnd : (specs.map (fun s => s.1)).Nodup) :
    specs.foldl (fun acc s => setColumn acc s.1 s.2.1 (fun r => s.2.2 (cellAt r di))) t =
      ⟨t.cols ++ specs.map (fun s => ⟨s.1, s.2.1⟩),
       t.rows.map (fun r => r ++ specs.map (fun s => s.2.2 (cellAt r di)))⟩ := by
  induction specs generalizing t with
  | nil =>
    simp
  | cons s rest ih =>
    rw [List.foldl_cons, setColumn_fresh _ _ _ _ (hfresh s (List.mem_cons_self s rest))]
    set t' : Table := ⟨t.cols ++ [⟨s.1, s.2.1⟩],
      t.rows.map (fun r => r ++ [s.2.2 (cellAt r di)])⟩ with ht'
    have hWF' : WFT t' := by
      intro r hr
      rw [ht'] at hr
      simp only [List.mem_map] at hr
      obtain ⟨r0, hr0, rfl⟩ := hr
      simp [ht', hWF r0 hr0]
    have hdi' : di < t'.cols.length := by
      simp only [ht', List.length_append]
      omega
    have hfresh' : ∀ u ∈ rest, hasCol t' u.1 = false := by
      intro u hu
      have h1 : hasCol t u.1 = false := hfresh u (List.mem_cons_of_mem s hu)
      have h2 : s.1 ≠ u.1 := by
        intro he
        have hm : u.1 ∈ rest.map (fun w => w.1) := List.mem_map_of_mem _ hu
        rw [← he] at hm
        exact (List.nodup_cons.mp hnd).1 hm
      simp only [hasCol, ht', List.any_append] at h1 ⊢
      simp [h1, h2]
    have hnd' : (rest.map (fun s => s.1)).Nodup := (List.nodup_cons.mp hnd).2
    rw [ih t' hWF' hdi' hfresh' hnd']
    simp only [ht', Table.mk.injEq]
    constructor
    · simp [List.append_assoc]
    · rw [List.map_map]
      apply List.map_congr_left
      intro r hr
      have hlt : di < r.length := by
        rw [hWF r hr]
        exact hdi
      simp only [Function.comp_apply, List.map_cons]
      rw [List.append_assoc]
      simp only [List.singleton_append]
      congr 2
      apply List.map_congr_left
      intro u _
      rw [cellAt_append_left r _ di hlt]

theorem addDateFeatures_fresh (t : Table) (di : Nat)
    (hWF : WFT t) (hdi : di < t.cols.length) (hfresh : freshForFeatures t) :
    addDateFeatures t di =
      ⟨t.cols ++ dateDerivedCols,
       t.rows.map (fun r => r ++ dateDerivedVals (cellAt r di))⟩ := by
  unfold addDateFeatures
  have hf : ∀ s ∈ dateFeatureSpecs, hasCol t s.1 = false := by
    intro s hs
    simp only [dateFeatureSpecs, List.mem_cons, List.not_mem_nil, or_false] at hs
    rcases hs with rfl|rfl|rfl|rfl|rfl|rfl|rfl|rfl|rfl|rfl <;>
      exact hfresh _ (by simp [derivedNames])
  have hnd : (dateFeatureSpecs.map (fun s => s.1)).Nodup := by
    have he : dateFeatureSpecs.map (fun s => s.1) =
        ["year", "month", "month_name", "day", "day_of_week", "day_name",
         "hour", "is_weekend", "time_of_day", "season"] := rfl
    rw [he]
    decide
  rw [foldl_setColumn_fresh dateFeatureSpecs t di hWF hdi hf hnd]
  congr 1
  apply List.map_congr_left
  intro r _
  congr 1
  cases cellAt r di <;> rfl

theorem engineerTable_fresh_noPT (t : Table) (di : Nat)
    (hWF : WFT t) (hdi : colIdx t "date" = some di)
    (hdt : (t.cols.getD di ⟨"", .text⟩).dtype = .date)
    (hfresh : freshForFeatures t)
    (hpt : hasCol t "primary_type" = false) :
    engineerTable t = .ok ⟨t.cols ++ dateDerivedCols,
      t.rows.map (fun r => r ++ dateDerivedVals (cellAt r di))⟩ := by
  unfold engineerTable
  rw [hdi]
  dsimp only
  rw [if_neg (by simp [List.getD_eq_getElem?_getD] at hdt; simp [hdt])]
  have hlt : di < t.cols.length := findIdx?_lt_length hdi
  rw [addDateFeatures_fresh t di hWF hlt hfresh]
  have hcn : List.findIdx? (fun c => c.name = "primary_type")
      (t.cols ++ dateDerivedCols) = none := by
    apply findIdx?_append_none
    · exact (hasCol_iff_findIdx t _).mp hpt
    · decide
  simp only [colIdx]
  rw [hcn]

theorem engineerTable_fresh_withPT (t : Table) (di pi : Nat)
    (hWF : WFT t) (hdi : colIdx t "date" = some di)
    (hdt : (t.cols.getD di ⟨"", .text⟩).dtype = .date)
    (hfresh : freshForFeatures t)
    (hpt : colIdx t "primary_type" = some pi) :
    engineerTable t = .ok ⟨t.cols ++ dateDerivedCols ++ [⟨"is_violent", .boolT⟩],
      t.rows.map (fun r => r ++ dateDerivedVals (cellAt r di) ++
        [.boolV (isViolentVal (cellAt r pi))])⟩ := by
  unfold engineerTable
  rw [hdi]
  dsimp only
  rw [if_neg (by simp [List.getD_eq_getElem?_getD] at hdt; simp [hdt])]
  have hlt : di < t.cols.length := findIdx?_lt_length hdi
  have hplt : pi < t.cols.length := findIdx?_lt_length hpt
  rw [addDateFeatures_fresh t di hWF hlt hfresh]
  have hcs : List.findIdx? (fun c => c.name = "primary_type")
      (t.cols ++ dateDerivedCols) = some pi := findIdx?_append_some _ hpt
  simp only [colIdx]
  rw [hcs]
  dsimp only
  have hiv : hasCol ⟨t.cols ++ dateDerivedCols,
      t.rows.map (fun r => r ++ dateDerivedVals (cellAt r di))⟩ "is_violent" = false := by
    show (t.cols ++ dateDerivedCols).any (fun c => c.name = "is_violent") = false
    rw [List.any_append]
    have h1 : t.cols.any (fun c => c.name = "is_violent") = false :=
      hfresh _ (by simp [derivedNames])
    rw [h1]
    decide
  rw [setColumn_fresh _ _ _ _ hiv]
  simp only [Except.ok.injEq, Table.mk.injEq, List.map_map]
  refine ⟨by trivial, ?_⟩
  apply List.map_congr_left
  intro r hr
  have hp : pi < r.length := by
    rw [hWF r hr]
    exact hplt
  simp only [Function.comp_apply]
  rw [cellAt_append_left r _ pi hp]

/-! ## Claim theorems -/

/-- **C3.** The derived `time_of_day` and `season` columns are total
functions of hour and month with exactly the half-open, left-inclusive
buckets hour ∈ [6,12) → Morning, [12,18) → Afternoon, [18,24) → Evening,
[0,6) → Night and month ∈ {12,1,2} → Winter, {3,4,5} → Spring,
{6,7,8} → Summer, {9,10,11} → Fall; hour 6 is Morning, 5 is Night, 18 is
Evening, 0 is Night; and in the enriched table a row with a non-null date
cell carries exactly these (non-null) string values in the `time_of_day`
and `season` columns. -/
theorem C3_time_and_season_buckets :
    (∀ h : Nat, h < 24 →
      (6 ≤ h ∧ h < 12 → categorize_time h = "Morning") ∧
      (12 ≤ h ∧ h < 18 → categorize_time h = "Afternoon") ∧
      (18 ≤ h ∧ h < 24 → categorize_time h = "Evening") ∧
      (h < 6 → categorize_time h = "Night")) ∧
    (∀ m : Nat, 1 ≤ m → m ≤ 12 →
      ((m = 12 ∨ m = 1 ∨ m = 2) → get_season m = "Winter") ∧
      ((m = 3 ∨ m = 4 ∨ m = 5) → get_season m = "Spring") ∧
      ((m = 6 ∨ m = 7 ∨ m = 8) → get_season m = "Summer") ∧
      ((m = 9 ∨ m = 10 ∨ m = 11) → get_season m = "Fall")) ∧
    categorize_time 6 = "Morning" ∧ categorize_time 5 = "Night" ∧
    categorize_time 18 = "Evening" ∧ categorize_time 0 = "Night" ∧
    (∀ (t : Table) (di : Nat) (t' : Table), WFT t → colIdx t "date" = some di →
      (t.cols.getD di ⟨"", .text⟩).dtype = .date → freshForFeatures t →
      engineerTable t = .ok t' →
      List.Forall₂ (fun r r' => ∀ d, cellAt r di = .dateV d →
          cellAt r' (r.length + 8) = .str (categorize_time d.hour) ∧
          cellAt r' (r.length + 9) = .str (get_season d.month) ∧
          cellAt r' (r.length + 8) ≠ .null ∧
          cellAt r' (r.length + 9) ≠ .null)
        t.rows t'.rows) := by
  refine ⟨?_, ?_, by decide, by decide, by decide, by decide, ?_⟩
  · intro h _
    refine ⟨?_, ?_, ?_, ?_⟩
    · intro hb
      unfold categorize_time
      rw [if_pos hb]
    · intro hb
      unfold categorize_time
      rw [if_neg (by omega), if_pos hb]
    · intro hb
      unfold categorize_time
      rw [if_neg (by omega), if_neg (by omega), if_pos hb]
    · intro hb
      unfold categorize_time
      rw [if_neg (by omega), if_neg (by omega), if_neg (by omega)]
  · intro m _ _
    refine ⟨?_, ?_, ?_, ?_⟩ <;> intro hb <;>
      rcases hb with rfl | rfl | rfl <;> decide
  · intro t di t' hWF hdi hdt hfresh heng
    have hkey : ∀ (ext : Row) (r : Row), r ∈ t.rows →
        ∀ d, cellAt r di = .dateV d →
        cellAt (r ++ (dateDerivedVals (cellAt r di) ++ ext)) (r.length + 8) =
            .str (categorize_time d.hour) ∧
        cellAt (r ++ (dateDerivedVals (cellAt r di) ++ ext)) (r.length + 9) =
            .str (get_season d.month) ∧
        cellAt (r ++ (dateDerivedVals (cellAt r di) ++ ext)) (r.length + 8) ≠ .null ∧
        cellAt (r ++ (dateDerivedVals (cellAt r di) ++ ext)) (r.length + 9) ≠ .null := by
      intro ext r _ d hd
      have e8 : cellAt (r ++ (dateDerivedVals (cellAt r di) ++ ext)) (r.length + 8) =
          .str (categorize_time d.hour) := by
        rw [cellAt_append_idx,
          cellAt_append_left _ _ 8 (by rw [dateDerivedVals_length]; omega), hd]
        rfl
      have e9 : cellAt (r ++ (dateDerivedVals (cellAt r di) ++ ext)) (r.length + 9) =
          .str (get_season d.month) := by
        rw [cellAt_append_idx,
          cellAt_append_left _ _ 9 (by rw [dateDerivedVals_length]; omega), hd]
        rfl
      exact ⟨e8, e9, by rw [e8]; simp, by rw [e9]; simp⟩
    rcases hpt : colIdx t "primary_type" with _ | pi
    · rw [engineerTable_fresh_noPT t di hWF hdi hdt hfresh
        ((hasCol_iff_findIdx t _).mpr hpt)] at heng
      obtain rfl : t' = _ := by injection heng with h1; exact h1.symm
      rw [List.forall₂_map_right_iff]
      rw [List.forall₂_same]
      intro r hr d hd
      have := hkey [] r hr d hd
      simpa using this
    · rw [engineerTable_fresh_withPT t di pi hWF hdi hdt hfresh hpt] at heng
      obtain rfl : t' = _ := by injection heng with h1; exact h1.symm
      rw [List.forall₂_map_right_iff]
      rw [List.forall₂_same]
      intro r hr d hd
      have := hkey [.boolV (isViolentVal (cellAt r pi))] r hr d hd
      simpa [List.append_assoc] using this

/-- Witness for C3: the bucket clauses evaluated at concrete hours and
months, and the enriched-table clause at the concrete `exClean`. -/
theorem C3_witness :
    categorize_time 7 = "Morning" ∧ get_season 4 = "Spring" ∧
    List.Forall₂ (fun r r' => ∀ d, cellAt r 0 = .dateV d →
        cellAt r' (r.length + 8) = .str (categorize_time d.hour) ∧
        cellAt r' (r.length + 9) = .str (get_season d.month) ∧
        cellAt r' (r.length + 8) ≠ .null ∧
        cellAt r' (r.length + 9) ≠ .null)
      exClean.rows exEnriched.rows :=
  ⟨(C3_time_and_season_buckets.1 7 (by norm_num)).1 (by norm_num),
   (C3_time_and_season_buckets.2.1 4 (by norm_num) (by norm_num)).2.1 (by norm_num),
   C3_time_and_season_buckets.2.2.2.2.2.2 exClean 0 exEnriched
     (by unfold WFT; decide) (by decide) (by decide)
     (by unfold freshForFeatures; decide) (by decide)⟩

/-- **C4.** In the enriched table `is_violent` is true exactly when the
`primary_type` cell is one of the six fixed upper-case categories
(`"BATTERY"` yields true, `"THEFT"` false), and the `is_violent` column
is omitted entirely when the `primary_type` column is absent. -/
theorem C4_is_violent :
    (∀ s : String, isViolentVal (.str s) = true ↔ s ∈ violent_crimes) ∧
    isViolentVal (.str "BATTERY") = true ∧
    isViolentVal (.str "THEFT") = false ∧
    (∀ (t : Table) (di : Nat) (t' : Table), WFT t → colIdx t "date" = some di →
      (t.cols.getD di ⟨"", .text⟩).dtype = .date → freshForFeatures t →
      hasCol t "primary_type" = false →
      engineerTable t = .ok t' → hasCol t' "is_violent" = false) ∧
    (∀ (t : Table) (di pi : Nat) (t' : Table), WFT t → colIdx t "date" = some di →
      (t.cols.getD di ⟨"", .text⟩).dtype = .date → freshForFeatures t →
      colIdx t "primary_type" = some pi →
      engineerTable t = .ok t' →
      List.Forall₂ (fun r r' =>
          cellAt r' (r.length + 10) = .boolV (isViolentVal (cellAt r pi)))
        t.rows t'.rows) := by
  refine ⟨?_, by decide, by decide, ?_, ?_⟩
  · intro s
    simp only [isViolentVal]
    exact List.elem_iff
  · intro t di t' hWF hdi hdt hfresh hpt heng
    rw [engineerTable_fresh_noPT t di hWF hdi hdt hfresh hpt] at heng
    obtain rfl : t' = _ := by injection heng with h1; exact h1.symm
    show (t.cols ++ dateDerivedCols).any (fun c => c.name = "is_violent") = false
    rw [List.any_append]
    have h1 : t.cols.any (fun c => c.name = "is_violent") = false :=
      hfresh _ (by simp [derivedNames])
    rw [h1]
    decide
  · intro t di pi t' hWF hdi hdt hfresh hpt heng
    rw [engineerTable_fresh_withPT t di pi hWF hdi hdt hfresh hpt] at heng
    obtain rfl : t' = _ := by injection heng with h1; exact h1.symm
    rw [List.forall₂_map_right_iff, List.forall₂_same]
    intro r _
    rw [List.append_assoc, cellAt_append_idx]
    have h10 : (10 : Nat) = (dateDerivedVals (cellAt r di)).length :=
      (dateDerivedVals_length _).symm
    rw [h10, cellAt_append_right]

/-- Witness for C4: the violent flag on the concrete `exClean`, whose
`primary_type` column is at position 1. -/
theorem C4_witness :
    isViolentVal (.str "BATTERY") = true ∧
    List.Forall₂ (fun r r' =>
        cellAt r' (r.length + 10) = .boolV (isViolentVal (cellAt r 1)))
      exClean.rows exEnriched.rows :=
  ⟨C4_is_violent.2.1,
   C4_is_violent.2.2.2.2 exClean 0 1 exEnriched
     (by unfold WFT; decide) (by decide) (by decide)
     (by unfold freshForFeatures; decide) (by decide) (by decide)⟩

/-- **C9.** The raw table is never mutated after loading: cleaning and
feature engineering leave `self.df` unchanged (each works on a copy and
reassigns only `self.clean_df`), and exploration and all four analyzers
leave the whole analyzer state — raw and cleaned/enriched tables —
unchanged. -/
theorem C9_frame :
    (∀ st, ((clean_data st).1).df = st.df) ∧
    (∀ st, ((engineer_features st).1).df = st.df) ∧
    (∀ st, (explore_data st).1 = st) ∧
    (∀ st, (analyze_trends st).1 = st) ∧
    (∀ st, (analyze_crime_types st).1 = st) ∧
    (∀ st, (analyze_geographic st).1 = st) ∧
    (∀ st, (calculate_kpis st).1 = st) := by
  refine ⟨?_, ?_, ?_, ?_, ?_, ?_, ?_⟩ <;> intro st <;> obtain ⟨p, df, cdf⟩ := st
  · unfold clean_data
    rcases df with _ | t
    · rfl
    · dsimp only
      rcases h : cleanTable t with e | t2 <;> rfl
  · unfold engineer_features
    rcases cdf with _ | t
    · rfl
    · dsimp only
      rcases h : engineerTable t with e | t2 <;> rfl
  · unfold explore_data
    rcases df with _ | t <;> rfl
  · unfold analyze_trends
    rcases cdf with _ | t <;> rfl
  · unfold analyze_crime_types
    rcases cdf with _ | t <;> rfl
  · unfold analyze_geographic
    rcases cdf with _ | t <;> rfl
  · unfold calculate_kpis
    rcases cdf with _ | t <;> rfl

/-- **C10.** `load_data` with no path argument and no stored path raises
`ValueError` before any read (the outcome does not depend on the file
system, and the state is unchanged); this error kind is distinct from
`NotFound` and `LoadError`, which can only arise once a path was
resolved. -/
theorem C10_load_no_path :
    (∀ st fs, st.data_path = none →
      load_data st none fs = (st, .error (.valueError "Data path must be provided"))) ∧
    (∀ st fs fs', st.data_path = none →
      load_data st none fs = load_data st none fs') ∧
    (PipeError.valueError "Data path must be provided" ≠ .notFound ∧
     PipeError.valueError "Data path must be provided" ≠ .loadError) ∧
    (∀ st p fs,
      ((load_data st p fs).2 = .error .notFound ∨
       (load_data st p fs).2 = .error .loadError) →
      ∃ s, effectivePath st p = some s) := by
  refine ⟨?_, ?_, by decide, ?_⟩
  · intro st fs h
    unfold load_data
    have he : effectivePath st none = none := h
    rw [he]
  · intro st fs fs' h
    unfold load_data
    have he : effectivePath st none = none := h
    rw [he]
  · intro st p fs
    unfold load_data
    rcases he : effectivePath st p with _ | s
    · intro hc
      rcases hc with hc | hc <;> exact absurd hc (by simp)
    · intro _
      exact ⟨s, rfl⟩

/-- Witness for C10: a freshly constructed analyzer with no stored path,
on a file system where every path is missing. -/
theorem C10_witness :
    load_data (initState none) none fsMissing =
      (initState none, .error (.valueError "Data path must be provided")) :=
  C10_load_no_path.1 (initState none) fsMissing rfl

theorem all_congr_mem {l : List α} {p q : α → Bool} (h : ∀ a ∈ l, p a = q a) :
    l.all p = l.all q := by
  induction l with
  | nil => rfl
  | cons a as ih =>
    simp only [List.all_cons]
    rw [h a (List.mem_cons_self a as), ih (fun x hx => h x (List.mem_cons_of_mem a hx))]

theorem cellAt_lt (r : Row) (i : Nat) (h : i < r.length) :
    cellAt r i = r.get ⟨i, h⟩ := by
  simp [cellAt, List.getD_eq_getElem?_getD, List.getElem?_eq_getElem h]

theorem fillnaCol_eq_spec (t : Table) (n : String) :
    fillnaCol t n (.str "UNKNOWN") = specFillColumn t n := by
  unfold fillnaCol specFillColumn
  cases colIdx t n with
  | none => rfl
  | some i =>
    simp only [Table.mk.injEq, true_and]
    apply List.map_congr_left
    intro r _
    apply modifyIdx_congr
    intro v
    cases v <;> simp [specFillCell]

theorem coerceBoolCol_eq_spec (t : Table) (n : String) :
    coerceBoolCol t n = specCoerceColumn t n := by
  unfold coerceBoolCol specCoerceColumn
  cases colIdx t n with
  | none => rfl
  | some i =>
    simp only [Table.mk.injEq, true_and]
    apply List.map_congr_left
    intro r _
    apply modifyIdx_congr
    intro v
    cases v with
    | intV k => by_cases hk : k = 0 <;> simp [pyBool, specToBool, hk]
    | _ => simp [pyBool, specToBool]

theorem stdCell_eq_spec (v : Value) : stdCell v = specStdCell v := by
  cases v <;> rfl

theorem standardizeText_eq_spec (t : Table) :
    standardizeText t = specStandardizeStep t := by
  unfold standardizeText specStandardizeStep standardizeRow
  simp only [stdCell_eq_spec]

theorem critNull_pred_eq (cols : List Column) (r : Row) :
    (!anyCriticalNull cols r) = critical_fields.all (fun n =>
      match List.findIdx? (fun c => c.name = n) cols with
      | some i => decide (cellAt r i ≠ .null)
      | none => true) := by
  unfold anyCriticalNull
  rw [List.not_any_eq_all_not]
  apply all_congr_mem
  intro n _
  cases List.findIdx? (fun c => c.name = n) cols with
  | none => rfl
  | some i => simp

/-- **C5.** On a table holding the four critical columns, `clean_data`
computes exactly the composition of the five specified transformations,
in the specified order: deduplicate, drop rows with missing critical
fields, fill the two description sentinels, coerce the two boolean
fields, and standardise text columns. -/
theorem C5_clean_is_five_steps (t : Table) (h : hasCriticals t = true) :
    cleanTable t = .ok (specCleanPipeline t) := by
  unfold cleanTable specCleanPipeline specRemoveDuplicates specDropMissingCritical
    specFillSentinels specCoerceBooleans
  have hf : critical_fields.find? (fun n => !(hasCol t n)) = none := by
    apply List.find?_eq_none.mpr
    intro n hn
    have hcn : hasCol t n = true := by
      have := List.all_eq_true.mp (by simpa [hasCriticals] using h) n hn
      simpa using this
    simp [hcn]
  rw [hf]
  dsimp only
  rw [standardizeText_eq_spec, coerceBoolCol_eq_spec, coerceBoolCol_eq_spec,
    fillnaCol_eq_spec, fillnaCol_eq_spec]
  have hfilter : (dedupRows t.rows).filter (fun r => !anyCriticalNull t.cols r) =
      (dedupRows t.rows).filter (fun r => critical_fields.all (fun n =>
        match List.findIdx? (fun c => c.name = n) t.cols with
        | some i => decide (cellAt r i ≠ .null)
        | none => true)) := by
    apply List.filter_congr
    intro r _
    exact critNull_pred_eq t.cols r
  rw [hfilter]

/-- Witness for C5: the five-step decomposition on the concrete cleaned
table `exClean`. -/
theorem C5_witness : cleanTable exClean = .ok (specCleanPipeline exClean) :=
  C5_clean_is_five_steps exClean (by decide)

theorem fillnaCol_rows_length (t : Table) (n : String) (x : Value) :
    (fillnaCol t n x).rows.length = t.rows.length := by
  unfold fillnaCol
  cases colIdx t n <;> simp

theorem coerceBoolCol_rows_length (t : Table) (n : String) :
    (coerceBoolCol t n).rows.length = t.rows.length := by
  unfold coerceBoolCol
  cases colIdx t n <;> simp

theorem standardizeText_rows_length (t : Table) :
    (standardizeText t).rows.length = t.rows.length := by
  unfold standardizeText
  simp

theorem addDateFeatures_rows_length (t : Table) (di : Nat) :
    (addDateFeatures t di).rows.length = t.rows.length := by
  unfold addDateFeatures
  generalize dateFeatureSpecs = specs
  induction specs generalizing t with
  | nil => rfl
  | cons s rest ih =>
    rw [List.foldl_cons]
    rw [ih]
    exact setColumn_rows_length t s.1 s.2.1 _

set_option maxHeartbeats 1000000 in
/-- **C6.** Cleaning never increases the row count, and feature
engineering preserves the row count exactly and neither drops nor
reorders rows — each enriched row is its cleaned row extended on the
right by the derived cells. -/
theorem C6_row_counts :
    (∀ t t2, cleanTable t = .ok t2 → t2.rows.length ≤ t.rows.length) ∧
    (∀ t t2, engineerTable t = .ok t2 → t2.rows.length = t.rows.length) ∧
    (∀ (t : Table) (di : Nat) (t2 : Table), WFT t → colIdx t "date" = some di →
      (t.cols.getD di ⟨"", .text⟩).dtype = .date → freshForFeatures t →
      engineerTable t = .ok t2 →
      List.Forall₂ (fun r r2 => ∃ ext, r2 = r ++ ext) t.rows t2.rows) := by
  refine ⟨?_, ?_, ?_⟩
  · intro t t2 h
    unfold cleanTable at h
    rcases hf : critical_fields.find? (fun n => !(hasCol t n)) with _ | m
    · rw [hf] at h
      dsimp only at h
      have ht2 : t2 = standardizeText (coerceBoolCol (coerceBoolCol
          (fillnaCol (fillnaCol ⟨t.cols, (dedupRows t.rows).filter
            (fun r => !anyCriticalNull t.cols r)⟩
            "description" (.str "UNKNOWN")) "location_description" (.str "UNKNOWN"))
          "arrest") "domestic") := by
        injection h with h1
        exact h1.symm
      rw [ht2, standardizeText_rows_length, coerceBoolCol_rows_length,
        coerceBoolCol_rows_length, fillnaCol_rows_length, fillnaCol_rows_length]
      calc ((dedupRows t.rows).filter (fun r => !anyCriticalNull t.cols r)).length
          ≤ (dedupRows t.rows).length := List.length_filter_le _ _
        _ ≤ t.rows.length := dedupRows_length_le t.rows
    · rw [hf] at h
      exact absurd h (by simp)
  · intro t t2 h
    unfold engineerTable at h
    rcases hdi : colIdx t "date" with _ | di
    · rw [hdi] at h
      exact absurd h (by simp)
    · rw [hdi] at h
      dsimp only at h
      by_cases hdt : (t.cols.getD di ⟨"", .text⟩).dtype ≠ .date
      · rw [if_pos hdt] at h
        exact absurd h (by simp)
      · rw [if_neg hdt] at h
        rcases hpt : colIdx (addDateFeatures t di) "primary_type" with _ | pi
        · rw [hpt] at h
          dsimp only at h
          have ht2 : t2 = addDateFeatures t di := by
            injection h with h1
            exact h1.symm
          rw [ht2, addDateFeatures_rows_length]
        · rw [hpt] at h
          dsimp only at h
          have ht2 : t2 = setColumn (addDateFeatures t di) "is_violent" .boolT
              (fun r => .boolV (isViolentVal (cellAt r pi))) := by
            injection h with h1
            exact h1.symm
          rw [ht2, setColumn_rows_length, addDateFeatures_rows_length]
  · intro t di t2 hWF hdi hdt hfresh heng
    rcases hpt : colIdx t "primary_type" with _ | pi
    · rw [engineerTable_fresh_noPT t di hWF hdi hdt hfresh
        ((hasCol_iff_findIdx t _).mpr hpt)] at heng
      obtain rfl : t2 = _ := by injection heng with h1; exact h1.symm
      rw [List.forall₂_map_right_iff, List.forall₂_same]
      intro r _
      exact ⟨_, rfl⟩
    · rw [engineerTable_fresh_withPT t di pi hWF hdi hdt hfresh hpt] at heng
      obtain rfl : t2 = _ := by injection heng with h1; exact h1.symm
      rw [List.forall₂_map_right_iff, List.forall₂_same]
      intro r _
      exact ⟨dateDerivedVals (cellAt r di) ++ [.boolV (isViolentVal (cellAt r pi))],
        by rw [List.append_assoc]⟩

/-- Witness for C6: the row-count facts on the concrete tables `exClean`
and `exEnriched`. -/
theorem C6_witness :
    exClean.rows.length ≤ exClean.rows.length ∧
    exEnriched.rows.length = exClean.rows.length ∧
    List.Forall₂ (fun r r2 => ∃ ext, r2 = r ++ ext) exClean.rows exEnriched.rows :=
  ⟨C6_row_counts.1 exClean exClean (by decide),
   C6_row_counts.2.1 exClean exEnriched (by decide),
   C6_row_counts.2.2 exClean 0 exEnriched (by unfold WFT; decide) (by decide)
     (by decide) (by unfold freshForFeatures; decide) (by decide)⟩

theorem hasCriticals_find_none (t : Table) (h : hasCriticals t = true) :
    critical_fields.find? (fun n => !(hasCol t n)) = none := by
  apply List.find?_eq_none.mpr
  intro n hn
  have hcn : hasCol t n = true := by
    have := List.all_eq_true.mp (by simpa [hasCriticals] using h) n hn
    simpa using this
  simp [hcn]

theorem fillnaCol_id (t : Table) (n : String) (x : Value)
    (h : noNullsIn t n = true) : fillnaCol t n x = t := by
  obtain ⟨cols, rows⟩ := t
  unfold fillnaCol
  unfold noNullsIn at h
  cases hi : colIdx ⟨cols, rows⟩ n with
  | none => rfl
  | some i =>
    rw [hi] at h
    simp only [Table.mk.injEq, true_and]
    have hid : ∀ r ∈ rows, modifyIdx (fun v => if v = .null then x else v) i r = r := by
      intro r hr
      apply modifyIdx_eq_self
      intro hlen
      have hnn : cellAt r i ≠ .null := by
        have := List.all_eq_true.mp h r hr
        simpa using this
      rw [cellAt_lt r i hlen] at hnn
      rw [if_neg hnn]
    rw [List.map_congr_left (g := id) (fun r hr => hid r hr), List.map_id]

theorem coerceBoolCol_id (t : Table) (n : String)
    (h : boolClean t n = true) : coerceBoolCol t n = t := by
  obtain ⟨cols, rows⟩ := t
  unfold coerceBoolCol
  unfold boolClean at h
  cases hi : colIdx ⟨cols, rows⟩ n with
  | none => rfl
  | some i =>
    rw [hi] at h
    simp only [Bool.and_eq_true, decide_eq_true_eq] at h
    obtain ⟨hdt, hcells⟩ := h
    have hilt : i < cols.length := findIdx?_lt_length hi
    simp only [Table.mk.injEq]
    constructor
    · apply modifyIdx_eq_self
      intro hlen
      have hgd : cols.getD i ⟨n, .text⟩ = cols.get ⟨i, hlen⟩ := by
        simp [List.getD_eq_getElem?_getD, List.getElem?_eq_getElem hlen]
      rw [hgd] at hdt
      rcases hc : cols.get ⟨i, hlen⟩ with ⟨nm, dt⟩
      rw [hc] at hdt
      simp only at hdt
      rw [hdt]
    · have hid : ∀ r ∈ rows,
          modifyIdx (fun v => .boolV (pyBool (if v = .null then .boolV false else v))) i r = r := by
        intro r hr
        apply modifyIdx_eq_self
        intro hlen
        have hcell := List.all_eq_true.mp hcells r hr
        rw [cellAt_lt r i hlen] at hcell
        rcases hb : r.get ⟨i, hlen⟩ with s | k | b | d | _ <;> rw [hb] at hcell <;>
          simp at hcell
        rfl
      rw [List.map_congr_left (g := id) (fun r hr => hid r hr), List.map_id]

theorem standardizeText_id (t : Table) (htext : textClean t = true)
    (hwf : ∀ r ∈ t.rows, r.length = t.cols.length) : standardizeText t = t := by
  obtain ⟨cols, rows⟩ := t
  unfold standardizeText standardizeRow
  unfold textClean at htext
  simp only [Table.mk.injEq, true_and]
  have hid : ∀ r ∈ rows,
      ((cols.zip r).map (fun p =>
        if p.1.dtype = .text ∧ p.1.name ≠ "date" then stdCell p.2 else p.2)) = r := by
    intro r hr
    have hall := List.all_eq_true.mp htext r hr
    have hstep : ((cols.zip r).map (fun p =>
        if p.1.dtype = .text ∧ p.1.name ≠ "date" then stdCell p.2 else p.2)) =
        (cols.zip r).map Prod.snd := by
      apply List.map_congr_left
      intro p hp
      by_cases hc : p.1.dtype = .text ∧ p.1.name ≠ "date"
      · rw [if_pos hc]
        have hpcell := List.all_eq_true.mp hall p hp
        rw [if_pos hc] at hpcell
        rcases hv : p.2 with s | k | b | d | _ <;> rw [hv] at hpcell
        · simp at hpcell
          exact congrArg Value.str hpcell
        · simp at hpcell
        · simp at hpcell
        · simp at hpcell
        · rfl
      · rw [if_neg hc]
    rw [hstep]
    exact List.map_snd_zip cols r (le_of_eq (hwf r hr))
  rw [List.map_congr_left (g := id) (fun r hr => hid r hr), List.map_id]

/-- The statement of claim C8 is refuted by `exDirty`: it has no
duplicate row and no missing critical field, yet cleaning changes it
(the lower-case `"theft"` is upper-cased), so the cleaner is not the
identity on it. -/
theorem C8_counterexample :
    exDirty.rows.Nodup ∧
    exDirty.rows.all (fun r => !anyCriticalNull exDirty.cols r) = true ∧
    cleanTable exDirty ≠ .ok exDirty := by
  refine ⟨by decide, by decide, by decide⟩

/-- **C8 (amended).** Cleaning is the identity on any table in fully
cleaned form: no duplicate rows, all four critical columns present with
no missing values, no missing description / location-description
values, `arrest` and `domestic` (when present) already boolean, and
every text cell already trimmed and upper-cased. -/
theorem C8_clean_fixed_point (t : Table) (h : cleanedForm t = true) :
    cleanTable t = .ok t := by
  unfold cleanedForm at h
  simp only [Bool.and_eq_true, decide_eq_true_eq] at h
  obtain ⟨⟨⟨⟨⟨⟨⟨⟨hnd, hcrit⟩, hnocrit⟩, hdesc⟩, hloc⟩, harr⟩, hdom⟩, htext⟩, hwf⟩ := h
  unfold cleanTable
  rw [hasCriticals_find_none t hcrit]
  dsimp only
  rw [dedupRows_eq_self t.rows hnd]
  have hfil : t.rows.filter (fun r => !anyCriticalNull t.cols r) = t.rows := by
    apply List.filter_eq_self.mpr
    intro r hr
    have := List.all_eq_true.mp hnocrit r hr
    simpa using this
  rw [hfil]
  rw [show (⟨t.cols, t.rows⟩ : Table) = t from rfl]
  rw [fillnaCol_id t _ _ hdesc, fillnaCol_id t _ _ hloc,
    coerceBoolCol_id t _ harr, coerceBoolCol_id t _ hdom,
    standardizeText_id t htext
      (fun r hr => of_decide_eq_true (List.all_eq_true.mp hwf r hr))]

/-- Witness for C8 (amended): the concrete `exClean` is in cleaned form
and is a fixed point of the cleaner. -/
theorem C8_witness : cleanTable exClean = .ok exClean :=
  C8_clean_fixed_point exClean (by decide)

theorem except_bind_ok (a : α) (f : α → Except ε β) :
    (Except.ok a : Except ε α) >>= f = f a := rfl

theorem rateOf_ok (t : Table) (n : String) : ∃ o, rateOf t n = .ok o := by
  unfold rateOf
  cases colIdx t n with
  | none => exact ⟨none, rfl⟩
  | some i =>
    dsimp only
    by_cases hn : t.rows.length = 0
    · rw [if_pos hn]
      exact ⟨none, rfl⟩
    · rw [if_neg hn]
      exact ⟨_, rfl⟩

/-- The statement of claim C1 is refuted by `exKpi0`, a one-row table
whose minimum date equals its maximum date: `calculate_kpis` does not
substitute a fallback and produce the remaining KPIs — it raises
`ZeroDivisionError` and returns nothing at all. -/
theorem C1_counterexample :
    calculate_kpisTable exKpi0 = Except.error PipeError.zeroDivision := by
  decide

/-- **C1 (amended).** For every table with a date column whose minimum
date equals its maximum date (zero-day span), the KPI calculation fails
fatally with `ZeroDivisionError`: no KPI record is returned, not even
the total count or the other percentage KPIs. -/
theorem C1_zero_span_fatal (t : Table) (ds : List Int) (m : Int)
    (hds : datesAbs t = .ok ds) (hmax : ds.max? = some m)
    (hmin : ds.min? = some m) :
    calculate_kpisTable t = .error .zeroDivision := by
  obtain ⟨o1, h1⟩ := rateOf_ok t "arrest"
  obtain ⟨o2, h2⟩ := rateOf_ok t "domestic"
  obtain ⟨o3, h3⟩ := rateOf_ok t "is_violent"
  unfold calculate_kpisTable
  rw [h1, except_bind_ok, h2, except_bind_ok, h3, except_bind_ok,
    hds, except_bind_ok, hmax, hmin]
  dsimp only
  rw [if_pos (by omega)]

/-- Witness for C1 (amended): the one-row table `exKpi0`. -/
theorem C1_witness : calculate_kpisTable exKpi0 = Except.error PipeError.zeroDivision :=
  C1_zero_span_fatal exKpi0 [dEx1.absDay] dEx1.absDay (by decide) (by decide) (by decide)

/-- The statement of claim C2 is refuted by the state `stCleanedOnly`
(cleaned, but features never engineered): trend analysis fails with a
`KeyError` on the missing `year` column, which is a different error kind
from the InvalidState `ValueError` the guard raises. -/
theorem C2_counterexample :
    analyze_trends stCleanedOnly = (stCleanedOnly, .error (.keyError "year")) ∧
    PipeError.keyError "year" ≠
      PipeError.valueError "Data not prepared. Call clean_data() first." := by
  exact ⟨by decide, by decide⟩

/-- **C2 (amended).** Trend analysis raises the InvalidState
`ValueError` exactly when no cleaned table exists (`clean_df` is
`None`); on a state that was cleaned but not feature-engineered (its
table has no `year` column) it instead fails with `KeyError('year')`.
In both cases the analyzer state is returned unchanged — there is no
partial mutation. -/
theorem C2_trends_guard :
    (∀ st, st.clean_df = none →
      analyze_trends st =
        (st, .error (.valueError "Data not prepared. Call clean_data() first."))) ∧
    (∀ st t, st.clean_df = some t → hasCol t "year" = false →
      analyze_trends st = (st, .error (.keyError "year"))) := by
  constructor
  · intro st h
    unfold analyze_trends
    rw [h]
  · intro st t h hy
    unfold analyze_trends
    rw [h]
    dsimp only
    have hic : intCol t "year" = .error (.keyError "year") := by
      unfold intCol
      rw [(hasCol_iff_findIdx t "year").mp hy]
    unfold analyze_trendsTable
    rw [hic]
    rfl

/-- Witness for C2 (amended): the fresh analyzer state (InvalidState
guard) and the cleaned-but-not-engineered state (`KeyError`). -/
theorem C2_witness :
    analyze_trends (initState none) =
      (initState none, .error (.valueError "Data not prepared. Call clean_data() first.")) ∧
    analyze_trends ⟨none, none, some exClean⟩ =
      (⟨none, none, some exClean⟩, .error (.keyError "year")) :=
  ⟨C2_trends_guard.1 (initState none) rfl,
   C2_trends_guard.2 ⟨none, none, some exClean⟩ exClean rfl (by decide)⟩

theorem firstMax_none {l : List (Int × Nat)} (h : firstMax l = none) : l = [] := by
  cases l with
  | nil => rfl
  | cons a as =>
    rw [firstMax] at h
    rcases hf : firstMax as with _ | r <;> rw [hf] at h <;> simp at h

theorem firstMax_spec : ∀ (l : List (Int × Nat)) (p : Int × Nat),
    firstMax l = some p → p ∈ l ∧ ∀ q ∈ l, q.2 ≤ p.2 := by
  intro l
  induction l with
  | nil =>
    intro p h
    simp [firstMax] at h
  | cons a as ih =>
    intro p h
    rw [firstMax] at h
    rcases hf : firstMax as with _ | r
    · rw [hf] at h
      dsimp only at h
      injection h with h
      subst h
      have has : as = [] := firstMax_none hf
      subst has
      refine ⟨List.mem_cons_self _ _, ?_⟩
      intro q hq
      rcases List.mem_cons.mp hq with rfl | hq2
      · exact le_rfl
      · simp at hq2
    · rw [hf] at h
      dsimp only at h
      obtain ⟨hrm, hrb⟩ := ih r hf
      by_cases hc : a.2 < r.2
      · rw [if_pos hc] at h
        injection h with h
        subst h
        refine ⟨List.mem_cons_of_mem _ hrm, ?_⟩
        intro q hq
        rcases List.mem_cons.mp hq with rfl | hq2
        · exact le_of_lt hc
        · exact hrb q hq2
      · rw [if_neg hc] at h
        injection h with h
        subst h
        refine ⟨List.mem_cons_self _ _, ?_⟩
        intro q hq
        rcases List.mem_cons.mp hq with rfl | hq2
        · exact le_rfl
        · exact le_trans (hrb q hq2) (Nat.le_of_not_lt hc)

theorem firstMax_first : ∀ (l : List (Int × Nat)),
    List.Pairwise (fun a b : Int × Nat => a.1 < b.1) l →
    ∀ p, firstMax l = some p → ∀ q ∈ l, q.2 = p.2 → p.1 ≤ q.1 := by
  intro l
  induction l with
  | nil =>
    intro _ p h
    simp [firstMax] at h
  | cons a as ih =>
    intro hp p h q hq hq2
    rw [firstMax] at h
    rcases hf : firstMax as with _ | r
    · rw [hf] at h
      dsimp only at h
      injection h with h
      subst h
      have has : as = [] := firstMax_none hf
      subst has
      rcases List.mem_cons.mp hq with rfl | hq2'
      · exact le_rfl
      · simp at hq2'
    · rw [hf] at h
      dsimp only at h
      by_cases hc : a.2 < r.2
      · rw [if_pos hc] at h
        injection h with h
        subst h
        rcases List.mem_cons.mp hq with rfl | hq2'
        · exact absurd hq2 (by omega)
        · exact ih (List.pairwise_cons.mp hp).2 r hf q hq2' hq2
      · rw [if_neg hc] at h
        injection h with h
        subst h
        rcases List.mem_cons.mp hq with rfl | hq2'
        · exact le_rfl
        · exact le_of_lt ((List.pairwise_cons.mp hp).1 q hq2')

theorem groupCountsInt_pairwise (xs : List Int) :
    List.Pairwise (fun a b : Int × Nat => a.1 < b.1) (groupCountsInt xs) := by
  unfold groupCountsInt
  rw [List.pairwise_map]
  have hsorted : List.Sorted (fun a b : Int => a ≤ b)
      ((xs.dedup).insertionSort (fun a b => a ≤ b)) :=
    List.sorted_insertionSort _ _
  have hnd : ((xs.dedup).insertionSort (fun a b => a ≤ b)).Nodup :=
    (List.Perm.nodup_iff (List.perm_insertionSort (fun a b : Int => a ≤ b) xs.dedup)).mpr
      (xs.nodup_dedup)
  have := List.Sorted.lt_of_le hsorted hnd
  simpa using this

theorem groupCountsInt_mem (xs : List Int) (y : Int) (c : Nat) :
    (y, c) ∈ groupCountsInt xs ↔ y ∈ xs ∧ c = xs.count y := by
  unfold groupCountsInt
  rw [List.mem_map]
  constructor
  · rintro ⟨k, hk, he⟩
    obtain ⟨rfl, rfl⟩ := Prod.mk.injEq .. |>.mp he
    refine ⟨?_, rfl⟩
    exact List.mem_dedup.mp ((List.Perm.mem_iff (List.perm_insertionSort _ _)).mp hk)
  · rintro ⟨hy, rfl⟩
    refine ⟨y, ?_, rfl⟩
    rw [List.Perm.mem_iff (List.perm_insertionSort _ _)]
    exact List.mem_dedup.mpr hy

theorem yoyNext_get?_succ : ∀ (l : List (Int × Nat)) (prev : Nat) (i : Nat)
    (a b : Int × Nat), l.get? i = some a → l.get? (i + 1) = some b →
    (yoyNext prev l).get? (i + 1) =
      some (b.1, some (((b.2 : ℚ) / (a.2 : ℚ) - 1) * 100)) := by
  intro l
  induction l with
  | nil =>
    intro prev i a b ha _
    simp at ha
  | cons q rest ih =>
    intro prev i a b ha hb
    cases i with
    | zero =>
      have haq : a = q := by
        simp only [List.get?_cons_zero, Option.some.injEq] at ha
        exact ha.symm
      subst haq
      cases rest with
      | nil => simp at hb
      | cons b' rest2 =>
        have hbb : b = b' := by
          simp only [List.get?_cons_succ, List.get?_cons_zero, Option.some.injEq] at hb
          exact hb.symm
        subst hbb
        rfl
    | succ n =>
      show (yoyNext q.2 rest).get? (n + 1) = _
      exact ih q.2 n a b ha hb

theorem yoyChange_get?_zero (l : List (Int × Nat)) (p : Int × Nat)
    (rest : List (Int × Nat)) (h : l = p :: rest) :
    (yoyChange l).get? 0 = some (p.1, none) := by
  subst h
  rfl

theorem yoyChange_get?_succ (l : List (Int × Nat)) (i : Nat) (a b : Int × Nat)
    (ha : l.get? i = some a) (hb : l.get? (i + 1) = some b) :
    (yoyChange l).get? (i + 1) =
      some (b.1, some (((b.2 : ℚ) / (a.2 : ℚ) - 1) * 100)) := by
  cases l with
  | nil => simp at ha
  | cons p rest =>
    show (yoyNext p.2 rest).get? i = _
    cases i with
    | zero =>
      have hap : a = p := by
        simp only [List.get?_cons_zero, Option.some.injEq] at ha
        exact ha.symm
      subst hap
      cases rest with
      | nil => simp at hb
      | cons b' rest2 =>
        have hbb : b = b' := by
          simp only [List.get?_cons_succ, List.get?_cons_zero, Option.some.injEq] at hb
          exact hb.symm
        subst hbb
        rfl
    | succ n =>
      exact yoyNext_get?_succ rest p.2 n a b ha hb

theorem yoyNext_length (prev : Nat) (l : List (Int × Nat)) :
    (yoyNext prev l).length = l.length := by
  induction l generalizing prev with
  | nil => rfl
  | cons q rest ih => simp [yoyNext, ih]

theorem yoyChange_length (l : List (Int × Nat)) :
    (yoyChange l).length = l.length := by
  cases l with
  | nil => rfl
  | cons p rest => simp [yoyChange, yoyNext_length]

/-- **C7.** Trend analysis groups by year into counts and returns
year-over-year change, monthly averages and the peak hour: the
year-over-year entry of each non-first year is exactly
`(current / previous - 1) * 100`, the first year carries no defined
value, the example counts `[2022 : 100, 2023 : 150]` give exactly `50`
for 2023 and `none` for 2022, and the reported peak hour attains the
maximum hourly count, ties broken by the smallest hour (the first
occurrence in the ascending 0..23 key order of the grouped counts).
The success equation is conditioned on the hourly series having a first
maximum: on an empty series `idxmax` raises instead of returning. -/
theorem C7_trend_analysis :
    (∀ (t : Table) (ys : List Int) (ym : List (Int × Int)) (hs : List Int)
        (pr : Int × Nat),
      intCol t "year" = .ok ys → ymPairs t = .ok ym →
      requireCol t "day_name" = .ok () → intCol t "hour" = .ok hs →
      firstMax (groupCountsInt hs) = some pr →
      analyze_trendsTable t = .ok ⟨groupCountsInt ys,
        yoyChange (groupCountsInt ys), monthly_avg ym, pr.1⟩) ∧
    (∀ (xs : List Int) (y : Int) (c : Nat),
      (y, c) ∈ groupCountsInt xs ↔ y ∈ xs ∧ c = xs.count y) ∧
    (∀ (l : List (Int × Nat)),
      (yoyChange l).length = l.length ∧
      (∀ p rest, l = p :: rest → (yoyChange l).get? 0 = some (p.1, none)) ∧
      (∀ i a b, l.get? i = some a → l.get? (i + 1) = some b →
        (yoyChange l).get? (i + 1) =
          some (b.1, some (((b.2 : ℚ) / (a.2 : ℚ) - 1) * 100)))) ∧
    (yoyChange [(2022, 100), (2023, 150)] = [(2022, none), (2023, some 50)]) ∧
    (∀ (xs : List Int) (pr : Int × Nat),
      firstMax (groupCountsInt xs) = some pr →
      pr ∈ groupCountsInt xs ∧
      (∀ p ∈ groupCountsInt xs, p.2 ≤ pr.2) ∧
      (∀ p ∈ groupCountsInt xs, p.2 = pr.2 → pr.1 ≤ p.1)) := by
  refine ⟨?_, groupCountsInt_mem, ?_, ?_, ?_⟩
  · intro t ys ym hs pr h1 h2 h3 h4 h5
    unfold analyze_trendsTable
    simp only [h1, h2, h3, h4, except_bind_ok]
    rw [h5]
  · intro l
    exact ⟨yoyChange_length l, yoyChange_get?_zero l, yoyChange_get?_succ l⟩
  · simp only [yoyChange, yoyNext]
    norm_num
  · intro xs pr h5
    obtain ⟨hm, hb⟩ := firstMax_spec _ pr h5
    exact ⟨hm, hb,
      fun q hq hq2 => firstMax_first _ (groupCountsInt_pairwise xs) pr h5 q hq hq2⟩

/-- Witness for C7: the three-row table `exTrend` (years 2020, 2020,
2021; hours 3, 3, 5) and the spec's own two-year example. -/
theorem C7_witness :
    analyze_trendsTable exTrend = .ok ⟨groupCountsInt [2020, 2020, 2021],
      yoyChange (groupCountsInt [2020, 2020, 2021]),
      monthly_avg [(2020, 1), (2020, 2), (2021, 1)], 3⟩ ∧
    (yoyChange [((2022 : Int), (100 : Nat)), (2023, 150)]).get? 1 =
      some (2023, some (((150 : ℚ) / (100 : ℚ) - 1) * 100)) :=
  ⟨C7_trend_analysis.1 exTrend [2020, 2020, 2021] [(2020, 1), (2020, 2), (2021, 1)]
     [3, 3, 5] (3, 2) (by decide) (by decide) (by decide) (by decide) (by decide),
   (C7_trend_analysis.2.2.1 [(2022, 100), (2023, 150)]).2.2 0 (2022, 100) (2023, 150)
     rfl rfl⟩

end Crime
